import Mathlib

/-!
Verification of the drone trip-packing scheduler (`drone.py`, `dispatch_server.py`,
`order.py`, `delivery_zones.py`) against its natural-language specification.

The Python code is shallowly embedded: each method becomes a pure Lean function;
mutable object state (`Drone.battery_charge`, `Drone.orders`, the dispatch
server's `trips`/`unpackaged_orders`) is threaded explicitly.  Order weights are
integers in the source (every field is read with `int(...)`), so `Order.weight`
is `ℤ`; battery arithmetic divides by the constant 36739 and is carried out over
`ℚ` (all values reached are exact rationals, so embedding the Python float
arithmetic as exact rational arithmetic is faithful up to rounding, which no
claim is about).  The zone-distance lookup (`DeliveryZones.distance_between`) is
an external collaborator and enters every definition as a parameter
`dist : ℕ → ℕ → ℚ`.

Two members of `Drone` referenced by `dispatch_server.py` are missing from the
source: `find_best_order_position` has a docstring but no body, and
`weight_limit` is never defined.  Both are modelled from the spec where marked.
-/

namespace DroneDelivery

/-- Embeds `Order` from `order.py`: an immutable record of the nine constructor fields. -/
structure Order where
  order_id : ℕ
  timestamp : ℕ
  delivery_zone : ℕ
  weight : ℤ
  user_id : ℕ
  subscriber : Bool
  fragile : Bool
  hazardous : Bool
  perishable : Bool
deriving DecidableEq

/-- The zone-distance oracle (`DeliveryZones.distance_between`), an external
collaborator: a function from an origin and a destination zone id to a distance. -/
abbrev Dist := ℕ → ℕ → ℚ

/-- Embeds `Drone.get_percent_battery_required(weight, distance)` from `drone.py`
(lines 116-125): `distance * (weight + 512) / 36739`. -/
def get_percent_battery_required (weight distance : ℚ) : ℚ :=
  distance * (weight + 512) / 36739

/-- The initial payload computed by `Drone.run_trip`: the sum of the weights of
all orders on the trip. -/
def totalWeight (orders : List Order) : ℤ :=
  (orders.map Order.weight).sum

/-- The delivery loop of `Drone.run_trip` (lines 64-82): walks the orders,
deducting the battery cost of each leg from the running charge and each
delivered order's weight from the running payload.  Returns `none` at the first
leg after which the charge is negative (the loop's early `return -1`),
otherwise the charge and the final zone after the last delivery. -/
def runTripLoop (dist : Dist) : ℕ → ℤ → ℚ → List Order → Option (ℚ × ℕ)
  | prev, _, battery, [] => some (battery, prev)
  | prev, payload, battery, o :: rest =>
    let b := battery - get_percent_battery_required (payload : ℚ) (dist prev o.delivery_zone)
    if b < 0 then none
    else runTripLoop dist o.delivery_zone (payload - o.weight) b rest

/-- Embeds `Drone.run_trip(orders, simulated_trip)` from `drone.py` (lines 37-94).
First component: the returned charge (`-1` on depletion, the final balance
otherwise).  Second component: the contents of the passed `orders` list after
the call — the source pops every delivered order from the front exactly when the
trip is real and the delivery loop ran to completion (the pop block at lines
84-87 runs before the final-return-leg check, and `delivered_order_count` then
equals the full length); on a mid-trip depletion the early `return -1` skips the
pops, and a simulated trip never pops. -/
def run_trip (dist : Dist) (stored : ℚ) (orders : List Order) (simulated : Bool) :
    ℚ × List Order :=
  let start := if simulated then 1 else stored
  match runTripLoop dist 0 (totalWeight orders) start orders with
  | none => (-1, orders)
  | some (b, prev) =>
    let final := b - get_percent_battery_required 0 (dist prev 0)
    (if final < 0 then -1 else final, if simulated then orders else [])

/-- Last element of a list, or `d` when the list is empty. -/
def lastD : List ℚ → ℚ → ℚ
  | [], d => d
  | [x], _ => x
  | _ :: x :: xs, d => lastD (x :: xs) d

/-- Specification-level balance trace of a trip: the battery balance after each
leg, starting from `b` at zone `prev`.  The payload charged on the leg to an
order is the total weight of the orders not yet delivered, and the final return
leg to zone 0 is flown at zero payload. -/
def legBalancesAux (dist : Dist) : ℕ → ℚ → List Order → List ℚ
  | prev, b, [] => [b - get_percent_battery_required 0 (dist prev 0)]
  | prev, b, o :: rest =>
    let b2 := b - get_percent_battery_required ((totalWeight (o :: rest) : ℤ) : ℚ)
      (dist prev o.delivery_zone)
    b2 :: legBalancesAux dist o.delivery_zone b2 rest

/-- Balance after every leg of a full trip from the warehouse at starting charge
`start`, the final return leg included. -/
def legBalances (dist : Dist) (start : ℚ) (orders : List Order) : List ℚ :=
  legBalancesAux dist 0 start orders

/-- Remaining charge of a simulated full trip over the drone's committed orders
with `o` inserted at index `p` (the probe `find_best_order_position` performs
for each candidate position). -/
def insertCharge (dist : Dist) (cur : List Order) (o : Order) (p : ℕ) : ℚ :=
  (run_trip dist 1 (List.insertIdx p o cur) true).1

/-- Left-to-right scan of candidate positions `0..n`: the position with the
greatest value of `f`, the lowest such position winning ties. -/
def scanBest (f : ℕ → ℚ) : ℕ → ℕ × ℚ
  | 0 => (0, f 0)
  | n + 1 =>
    let prev := scanBest f n
    if prev.2 < f (n + 1) then (n + 1, f (n + 1)) else prev

/-- Modelled from the spec: `Drone.find_best_order_position` in `src/drone.py`
(lines 103-110) carries only a docstring and no body, so its behaviour is taken
from the specification (§4.2): try inserting the candidate at every index
`0..len(current_orders)` inclusive, simulating the resulting full trip from full
charge each time; return the index yielding the maximum final remaining charge
among positions that do not deplete, the lowest index winning ties; return `-1`
when every position depletes (the docstring's "returns -1" sentinel, which the
call sites compare against `>= 0`). -/
def find_best_order_position (dist : Dist) (cur : List Order) (o : Order) : Int :=
  let best := scanBest (insertCharge dist cur o) cur.length
  if best.2 < 0 then -1 else (best.1 : Int)

/-- The mutable state of a `Drone` object: its stored battery fraction and its
committed order list (`drone.py` lines 9-12, minus the immutable zone oracle,
which is passed separately). -/
structure Drone where
  battery_charge : ℚ
  orders : List Order
deriving DecidableEq

/-- Embeds `Drone.__init__`: full battery, no orders. -/
def Drone.init : Drone := ⟨1, []⟩

/-- Embeds `Drone.recharge` (lines 112-114): battery back to 1. -/
def Drone.recharge (d : Drone) : Drone := { d with battery_charge := 1 }

/-- Embeds `Drone.add_order(order, position)` (lines 18-22). -/
def Drone.add_order (d : Drone) (o : Order) (position : ℕ) : Drone :=
  { d with orders := List.insertIdx position o d.orders }

/-- The `run_trip` method viewed at the object level: the source method reads
`self.delivery_zones` and (for a real trip) `self.battery_charge` but assigns no
attribute of `self`, so the drone component of the result is the input drone;
the mutation of the passed `orders` list is the second component. -/
def Drone.run_trip (dist : Dist) (d : Drone) (orders : List Order) (simulated : Bool) :
    ℚ × List Order × Drone :=
  ((DroneDelivery.run_trip dist d.battery_charge orders simulated).1,
   (DroneDelivery.run_trip dist d.battery_charge orders simulated).2, d)

/-- Embeds `Drone.deliver_orders` (lines 28-35): runs a real trip over the drone's own
order list (so the pops of delivered orders act on `self.orders`), stores the
returned charge in `self.battery_charge`, and raises `DeliveryException` when
that charge is negative.  The boolean is `true` exactly when the exception is
raised; the drone component is the object state at that moment. -/
def Drone.deliver_orders (dist : Dist) (d : Drone) : Drone × Bool :=
  let r := DroneDelivery.run_trip dist d.battery_charge d.orders false
  (⟨r.1, r.2⟩, decide (r.1 < 0))

/-- A committed sequence acceptable as scratch state: empty, or simulating to a
non-negative final charge from full charge. -/
def Feasible (dist : Dist) (cur : List Order) : Prop :=
  cur = [] ∨ 0 ≤ (run_trip dist 1 cur true).1

/-- One iteration of the `build_trip` loop (`dispatch_server.py` lines 91-98)
over the state (scratch drone's committed orders, running `current_weight`):
skip the order when it would exceed the weight limit, otherwise insert it at
the best position when one exists.  `wl` is the weight limit (modelled: the
source reads `self.payload_test_drone.weight_limit`, an attribute no code
defines). -/
def build_trip_step (dist : Dist) (wl : ℤ) (acc : List Order × ℤ) (o : Order) :
    List Order × ℤ :=
  if wl < acc.2 + o.weight then acc
  else
    let bp := find_best_order_position dist acc.1 o
    if bp < 0 then acc
    else (List.insertIdx bp.toNat o acc.1, acc.2 + o.weight)

/-- Embeds `DispatchServer.build_trip(orders)` (lines 83-101): a single pass over the
candidate orders in the given sequence starting from an empty scratch drone; the
returned trip is the scratch drone's committed order list. -/
def build_trip (dist : Dist) (wl : ℤ) (orders : List Order) : List Order :=
  (orders.foldl (build_trip_step dist wl) ([], 0)).1

/-- The amended C7 description of `build_trip` written as direct structural
recursion: one pass over the candidates in the given order, skipping an order
that would exceed the weight limit or has no feasible insertion position, and
continuing with the remaining candidates either way. -/
def build_trip_single_pass (dist : Dist) (wl : ℤ) (cur : List Order) (cw : ℤ) :
    List Order → List Order
  | [] => cur
  | o :: rest =>
    if wl < cw + o.weight then build_trip_single_pass dist wl cur cw rest
    else
      let bp := find_best_order_position dist cur o
      if bp < 0 then build_trip_single_pass dist wl cur cw rest
      else build_trip_single_pass dist wl (List.insertIdx bp.toNat o cur) (cw + o.weight) rest

/-- Insert `x` into a list sorted by `le`, after every element `y` with
`le y x` (stable insertion). -/
def insertSorted {α : Type} (le : α → α → Bool) (x : α) : List α → List α
  | [] => [x]
  | y :: ys => if le y x then y :: insertSorted le x ys else x :: y :: ys

/-- Stable insertion sort by the boolean relation `le`; models Python's stable
`list.sort`/`sorted`. -/
def sortBy {α : Type} (le : α → α → Bool) (l : List α) : List α :=
  l.foldl (fun acc x => insertSorted le x acc) []

/-- Sort order used by `remaining.sort(key=lambda o: -o.get_weight())`:
descending weight, stable. -/
def descWeight (a b : Order) : Bool :=
  decide (b.weight ≤ a.weight)

/-- Phase 1 of the spec's greedy `build_trip` (spec §4.3, quoted by claim C7,
written from the spec's words for comparison with the source): append candidates
in the given order while appending at the current tail keeps the simulated trip
feasible; stop at the first infeasible candidate, returning the committed
sequence and the overflow set (that candidate and all that follow). -/
def spec_phase1 (dist : Dist) : List Order → List Order → List Order × List Order
  | cur, [] => (cur, [])
  | cur, o :: rest =>
    if 0 ≤ insertCharge dist cur o cur.length then spec_phase1 dist (cur ++ [o]) rest
    else (cur, o :: rest)

/-- The two-phase greedy builder claimed by C7, written from the spec's words:
phase 1 tail-appends until the first infeasible order, phase 2 retries the
overflow set heaviest-first through the feasibility probe. -/
def spec_build_trip_two_phase (dist : Dist) (orders : List Order) : List Order :=
  let pr := spec_phase1 dist [] orders
  (sortBy descWeight pr.2).foldl
    (fun cur o =>
      let bp := find_best_order_position dist cur o
      if bp < 0 then cur else List.insertIdx bp.toNat o cur) pr.1

/-- Loop state of `build_most_optimal_trip`: the scratch drone's committed
orders, the `trip` accumulator (acceptance order), and the two exclusion
flags. -/
structure OptState where
  cur : List Order
  trip : List Order
  hasFrag : Bool
  hasHaz : Bool
deriving DecidableEq

/-- One acceptance attempt of `build_most_optimal_trip` (`dispatch_server.py`
lines 159-169 and 175-185, the two loops have identical bodies): skip a fragile
order once the trip holds a hazardous one and vice versa, then insert at the
best feasible position if any, extending the exclusion flags. -/
def opt_step (dist : Dist) (st : OptState) (o : Order) : OptState :=
  if o.fragile && st.hasHaz then st
  else if o.hazardous && st.hasFrag then st
  else
    let bp := find_best_order_position dist st.cur o
    if bp < 0 then st
    else
      { cur := List.insertIdx bp.toNat o st.cur,
        trip := st.trip ++ [o],
        hasFrag := st.hasFrag || o.fragile,
        hasHaz := st.hasHaz || o.hazardous }

/-- Embeds `DispatchServer.build_most_optimal_trip(orders)` (lines 136-190): phase 1
attempts every order of the first order's customer, phase 2 attempts the
not-yet-added orders heaviest first; the result is the scratch drone's committed
sequence.  The source computes the phase-2 candidate set by object identity
(`id(o)`); orders are embedded as values, so identity is value equality. -/
def build_most_optimal_trip (dist : Dist) (orders : List Order) : List Order :=
  match orders with
  | [] => []
  | first :: _ =>
    let customer_orders := orders.filter (fun o => o.user_id == first.user_id)
    let st1 := customer_orders.foldl (opt_step dist) ⟨[], [], false, false⟩
    let remaining := orders.filter (fun o => !(st1.trip.contains o))
    let st2 := (sortBy descWeight remaining).foldl (opt_step dist) st1
    st2.cur

/-- Invariant tying the exclusion flags of `build_most_optimal_trip` to its
committed orders: each flag covers the corresponding cargo class, and no two
distinct committed orders split the fragile/hazardous pair. -/
def OptInv (st : OptState) : Prop :=
  (∀ o ∈ st.cur, o.fragile = true → st.hasFrag = true)
  ∧ (∀ o ∈ st.cur, o.hazardous = true → st.hasHaz = true)
  ∧ (∀ o1 ∈ st.cur, ∀ o2 ∈ st.cur, o1.fragile = true → o2.hazardous = true → o1 = o2)

/-- Embeds `priority_score` as computed in `dispatch_server.py` (lines 12 and 32):
`(0 if perishable else 2) + (0 if subscriber else 1)`. -/
def priority_score (o : Order) : ℕ :=
  (if o.perishable then 0 else 2) + (if o.subscriber then 0 else 1)

/-- The four sort-key names accepted by `_KEY_EXTRACTORS` (lines 8-13). -/
inductive SortKeyName where
  | user_id
  | delivery_zone
  | timestamp
  | priority_score
deriving DecidableEq

/-- The extractor each key name selects (lines 8-13); every extractor returns a
natural number. -/
def keyExtract : SortKeyName → Order → ℕ
  | .user_id, o => o.user_id
  | .delivery_zone, o => o.delivery_zone
  | .timestamp, o => o.timestamp
  | .priority_score, o => priority_score o

/-- Embeds `DispatchServer.build_composite_key(order, sort_keys)` (lines 35-41): the
tuple of extractor values followed by `order_id` as the final tiebreaker. -/
def build_composite_key (ks : List SortKeyName) (o : Order) : List ℕ :=
  ks.map (fun k => keyExtract k o) ++ [o.order_id]

/-- Lexicographic comparison of equal-length key tuples, as Python compares the
tuples produced by `build_composite_key`. -/
def lexLe : List ℕ → List ℕ → Bool
  | [], _ => true
  | _ :: _, [] => false
  | a :: as, b :: bs => if a < b then true else if b < a then false else lexLe as bs

/-- The order relation `sorted(..., key=build_composite_key(...))` sorts by. -/
def keyLe (ks : List SortKeyName) (a b : Order) : Bool :=
  lexLe (build_composite_key ks a) (build_composite_key ks b)

/-- The dispatch server's mutable collections (`dispatch_server.py` lines
20-21): the packaged trips and the backlog of unpackaged orders. -/
structure DispatchServerState where
  trips : List (List Order)
  unpackaged_orders : List Order
deriving DecidableEq

/-- The `while orders:` loop of `schedule_orders` (lines 113-119): build a trip
from the working list, stop when it is empty, otherwise drop the trip's orders
from the working list and append the trip.  The source loop runs until the
working list is empty or a trip comes back empty; each productive iteration
removes at least one order, so `fuel = length + 1` iterations always reach one
of the two exits, and the fuel-0 branch is unreachable for the fuel the caller
passes. -/
def schedule_loop (dist : Dist) (wl : ℤ) :
    ℕ → List Order → List (List Order) → List (List Order)
  | 0, _, trips => trips
  | fuel + 1, orders, trips =>
    if orders.isEmpty then trips
    else
      let trip := build_trip dist wl orders
      if trip.isEmpty then trips
      else schedule_loop dist wl fuel
        (orders.filter (fun o => !(trip.contains o))) (trips ++ [trip])

/-- Embeds `DispatchServer.schedule_orders(sort_keys)` (lines 103-119): sorts a copy of
`unpackaged_orders` by the composite key, fills trips greedily with
`build_trip`, and appends them to `trips`.  The source method never writes
`self.unpackaged_orders` — only its local sorted copy shrinks — so the backlog
field passes through unchanged. -/
def schedule_orders (dist : Dist) (wl : ℤ) (ks : List SortKeyName)
    (st : DispatchServerState) : DispatchServerState :=
  { trips := schedule_loop dist wl (st.unpackaged_orders.length + 1)
      (sortBy (keyLe ks) st.unpackaged_orders) st.trips,
    unpackaged_orders := st.unpackaged_orders }

/-- The `while self.trips:` loop of `DispatchServer.deliver_orders` (lines
121-134): append the first trip's orders to the delivery drone, pop the trip,
deliver; on a `DeliveryException` print and return (leaving the remaining trips
in `self.trips` and the drone in its failed state), otherwise recharge and
continue.  Result: the trips left in `self.trips`, the delivery drone's state,
and whether a `DeliveryException` was caught (`true` = the loop aborted). -/
def deliver_orders_loop (dist : Dist) :
    List (List Order) → Drone → List (List Order) × Drone × Bool
  | [], d => ([], d, false)
  | trip :: rest, d =>
    let r := Drone.deliver_orders dist { d with orders := d.orders ++ trip }
    if r.2 then (rest, r.1, true)
    else deliver_orders_loop dist rest (Drone.recharge r.1)

/-! Section: Concrete instances used by witnesses and counterexamples -/

/-- Symmetric 3-zone distance table with zone 0 the warehouse:
`d(0,1) = 10`, `d(0,2) = 1`, `d(1,2) = 5`, `d(i,i) = 0`. -/
def dist3 : Dist := fun i j =>
  if i = j then 0
  else if (i = 0 ∧ j = 1) ∨ (i = 1 ∧ j = 0) then 10
  else if (i = 0 ∧ j = 2) ∨ (i = 2 ∧ j = 0) then 1
  else 5

/-- A distance table whose every inter-zone hop costs more than a full battery:
`100 * 512 / 36739 > 1`. -/
def distFar : Dist := fun i j => if i = j then 0 else 100

/-- A light order to zone 1. -/
def o1 : Order := ⟨1, 0, 1, 0, 1, false, false, false, false⟩

/-- A heavy order to zone 2, submitted after `o1`. -/
def o2 : Order := ⟨2, 1, 2, 1000, 2, false, false, false, false⟩

/-- An order that is both fragile and hazardous. -/
def oFH : Order := ⟨3, 0, 1, 0, 3, false, true, true, false⟩

/-! Section: Helper lemmas on the trip simulator -/

theorem lastD_cons_of_ne_nil (x d : ℚ) (l : List ℚ) (h : l ≠ []) :
    lastD (x :: l) d = lastD l d := by
  cases l with
  | nil => exact absurd rfl h
  | cons y ys => rfl

theorem lastD_mem (d : ℚ) (l : List ℚ) (h : l ≠ []) : lastD l d ∈ l := by
  induction l with
  | nil => exact absurd rfl h
  | cons x xs ih =>
    cases xs with
    | nil => simp [lastD]
    | cons y ys =>
      rw [lastD_cons_of_ne_nil x d (y :: ys) (by simp)]
      exact List.mem_cons_of_mem x (ih (by simp))

theorem totalWeight_cons (o : Order) (rest : List Order) :
    totalWeight (o :: rest) = o.weight + totalWeight rest := by
  simp [totalWeight]

theorem legBalancesAux_ne_nil (dist : Dist) (prev : ℕ) (b : ℚ) (l : List Order) :
    legBalancesAux dist prev b l ≠ [] := by
  cases l <;> simp [legBalancesAux]

/-- The core refinement: the value computed by the `run_trip` loop plus the
final-leg bookkeeping equals the spec-level description "`-1` if any balance in
the trace is negative, else the last balance". -/
theorem run_core_eq (dist : Dist) :
    ∀ (l : List Order) (prev : ℕ) (b : ℚ),
      (match runTripLoop dist prev (totalWeight l) b l with
       | none => (-1 : ℚ)
       | some (b', prev') =>
         let final := b' - get_percent_battery_required 0 (dist prev' 0)
         if final < 0 then -1 else final)
      = (if (legBalancesAux dist prev b l).any (fun x => decide (x < 0)) then -1
         else lastD (legBalancesAux dist prev b l) 0) := by
  intro l
  induction l with
  | nil =>
    intro prev b
    simp [runTripLoop, legBalancesAux, lastD]
  | cons o rest ih =>
    intro prev b
    set b2 := b - get_percent_battery_required ((totalWeight (o :: rest) : ℤ) : ℚ)
      (dist prev o.delivery_zone) with hb2
    by_cases h : b2 < 0
    · simp only [runTripLoop, legBalancesAux, ← hb2]
      rw [if_pos h]
      simp [h]
    · simp only [runTripLoop, legBalancesAux, ← hb2]
      rw [if_neg h]
      have hw : totalWeight (o :: rest) - o.weight = totalWeight rest := by
        rw [totalWeight_cons]; ring
      rw [hw]
      have := ih o.delivery_zone b2
      rw [this]
      have hne := legBalancesAux_ne_nil dist o.delivery_zone b2 rest
      rw [lastD_cons_of_ne_nil b2 0 _ hne]
      simp only [List.any_cons, decide_eq_true_eq]
      simp [h]

theorem run_trip_eq_spec (dist : Dist) (stored : ℚ) (orders : List Order) (simulated : Bool) :
    (run_trip dist stored orders simulated).1
      = (if (legBalances dist (if simulated then 1 else stored) orders).any
            (fun x => decide (x < 0)) then -1
         else lastD (legBalances dist (if simulated then 1 else stored) orders) 0) := by
  have h := run_core_eq dist orders 0 (if simulated then 1 else stored)
  cases hm : runTripLoop dist 0 (totalWeight orders) (if simulated then 1 else stored) orders with
  | none =>
    rw [hm] at h
    simp only [run_trip, legBalances]
    rw [hm]
    simpa using h
  | some p =>
    rw [hm] at h
    simp only [run_trip, legBalances]
    rw [hm]
    obtain ⟨b, prev⟩ := p
    simpa using h

theorem run_trip_fst_cases (dist : Dist) (stored : ℚ) (orders : List Order) (simulated : Bool) :
    (run_trip dist stored orders simulated).1 = -1
      ∨ 0 ≤ (run_trip dist stored orders simulated).1 := by
  rw [run_trip_eq_spec]
  by_cases h : (legBalances dist (if simulated then 1 else stored) orders).any
      (fun x => decide (x < 0))
  · left; simp [h]
  · right
    rw [if_neg h]
    simp only [List.any_eq_true, decide_eq_true_eq, not_exists, not_and] at h
    have hne : legBalances dist (if simulated then 1 else stored) orders ≠ [] :=
      legBalancesAux_ne_nil dist 0 _ orders
    have hmem := lastD_mem 0 _ hne
    exact not_lt.mp (h _ hmem)

/-- A non-negative `run_trip` result means no balance in the trace is negative. -/
theorem run_trip_nonneg_balances (dist : Dist) (stored : ℚ) (orders : List Order)
    (simulated : Bool) (h : 0 ≤ (run_trip dist stored orders simulated).1) :
    ∀ b ∈ legBalances dist (if simulated then 1 else stored) orders, 0 ≤ b := by
  rw [run_trip_eq_spec] at h
  by_cases ha : (legBalances dist (if simulated then 1 else stored) orders).any
      (fun x => decide (x < 0))
  · rw [if_pos ha] at h
    norm_num at h
  · simp only [List.any_eq_true, decide_eq_true_eq, not_exists, not_and] at ha
    intro b hb
    exact not_lt.mp (ha b hb)

/-! Section: Helper lemmas on the best-position search -/

theorem scanBest_val (f : ℕ → ℚ) : ∀ n, (scanBest f n).2 = f (scanBest f n).1 := by
  intro n
  induction n with
  | zero => rfl
  | succ n ih =>
    simp only [scanBest]
    by_cases h : (scanBest f n).2 < f (n + 1)
    · rw [if_pos h]
    · rw [if_neg h]; exact ih

theorem scanBest_fst_le (f : ℕ → ℚ) : ∀ n, (scanBest f n).1 ≤ n := by
  intro n
  induction n with
  | zero => simp [scanBest]
  | succ n ih =>
    simp only [scanBest]
    by_cases h : (scanBest f n).2 < f (n + 1)
    · simp [h]
    · simp only [h, if_false]
      exact Nat.le_succ_of_le ih

theorem scanBest_max (f : ℕ → ℚ) : ∀ n, ∀ q ≤ n, f q ≤ (scanBest f n).2 := by
  intro n
  induction n with
  | zero =>
    intro q hq
    interval_cases q
    simp [scanBest]
  | succ n ih =>
    intro q hq
    simp only [scanBest]
    by_cases h : (scanBest f n).2 < f (n + 1)
    · simp only [h, if_true]
      rcases Nat.lt_or_ge q (n + 1) with hq' | hq'
      · exact le_of_lt (lt_of_le_of_lt (ih q (Nat.lt_succ_iff.mp hq')) h)
      · have : q = n + 1 := le_antisymm hq hq'
        simp [this]
    · simp only [h, if_false]
      rcases Nat.lt_or_ge q (n + 1) with hq' | hq'
      · exact ih q (Nat.lt_succ_iff.mp hq')
      · have : q = n + 1 := le_antisymm hq hq'
        subst this
        exact not_lt.mp h

theorem scanBest_first (f : ℕ → ℚ) : ∀ n, ∀ q < (scanBest f n).1, f q < (scanBest f n).2 := by
  intro n
  induction n with
  | zero =>
    intro q hq
    simp [scanBest] at hq
  | succ n ih =>
    intro q hq
    simp only [scanBest] at hq ⊢
    by_cases h : (scanBest f n).2 < f (n + 1)
    · simp only [h, if_true] at hq ⊢
      exact lt_of_le_of_lt (scanBest_max f n q (Nat.lt_succ_iff.mp hq)) h
    · simp only [h, if_false] at hq ⊢
      exact ih q hq

theorem find_best_neg_iff (dist : Dist) (cur : List Order) (o : Order) :
    find_best_order_position dist cur o = -1
      ↔ ∀ p ≤ cur.length, insertCharge dist cur o p < 0 := by
  unfold find_best_order_position
  constructor
  · intro h p hp
    by_cases hb : (scanBest (insertCharge dist cur o) cur.length).2 < 0
    · exact lt_of_le_of_lt (scanBest_max _ _ p hp) hb
    · rw [if_neg hb] at h
      omega
  · intro h
    have hb : (scanBest (insertCharge dist cur o) cur.length).2 < 0 := by
      rw [scanBest_val]
      exact h _ (scanBest_fst_le _ _)
    simp [hb]

theorem find_best_nonneg_spec (dist : Dist) (cur : List Order) (o : Order)
    (h : 0 ≤ find_best_order_position dist cur o) :
    (find_best_order_position dist cur o).toNat ≤ cur.length
    ∧ 0 ≤ insertCharge dist cur o (find_best_order_position dist cur o).toNat
    ∧ (∀ q ≤ cur.length,
        insertCharge dist cur o q
          ≤ insertCharge dist cur o (find_best_order_position dist cur o).toNat)
    ∧ (∀ q < (find_best_order_position dist cur o).toNat,
        insertCharge dist cur o q
          < insertCharge dist cur o (find_best_order_position dist cur o).toNat) := by
  unfold find_best_order_position at h ⊢
  by_cases hb : (scanBest (insertCharge dist cur o) cur.length).2 < 0
  · rw [if_pos hb] at h
    omega
  · rw [if_neg hb] at h ⊢
    have hval := scanBest_val (insertCharge dist cur o) cur.length
    simp only [Int.toNat_natCast]
    refine ⟨scanBest_fst_le _ _, ?_, ?_, ?_⟩
    · rw [← hval]; exact not_lt.mp hb
    · intro q hq
      rw [← hval]; exact scanBest_max _ _ q hq
    · intro q hq
      rw [← hval]; exact scanBest_first _ _ q hq

/-- The search result is the sentinel or a genuine position. -/
theorem find_best_cases (dist : Dist) (cur : List Order) (o : Order) :
    find_best_order_position dist cur o = -1
      ∨ 0 ≤ find_best_order_position dist cur o := by
  unfold find_best_order_position
  by_cases hb : (scanBest (insertCharge dist cur o) cur.length).2 < 0
  · left; simp [hb]
  · right; simp [hb]

/-! Section: Feasibility invariants of the trip builders -/

theorem run_trip_nil (dist : Dist) (h0 : dist 0 0 = 0) :
    (run_trip dist 1 ([] : List Order) true).1 = 1 := by
  simp [run_trip, runTripLoop, get_percent_battery_required, h0]

theorem feasible_run_nonneg (dist : Dist) (h0 : dist 0 0 = 0) (l : List Order)
    (h : Feasible dist l) : 0 ≤ (run_trip dist 1 l true).1 := by
  cases h with
  | inl he => rw [he, run_trip_nil dist h0]; norm_num
  | inr h => exact h

theorem insert_at_best_feasible (dist : Dist) (cur : List Order) (o : Order)
    (h : 0 ≤ find_best_order_position dist cur o) :
    Feasible dist (List.insertIdx (find_best_order_position dist cur o).toNat o cur) := by
  right
  have := (find_best_nonneg_spec dist cur o h).2.1
  simpa [insertCharge] using this

theorem build_trip_step_feasible (dist : Dist) (wl : ℤ) (acc : List Order × ℤ) (o : Order)
    (h : Feasible dist acc.1) : Feasible dist (build_trip_step dist wl acc o).1 := by
  unfold build_trip_step
  by_cases h1 : wl < acc.2 + o.weight
  · simpa [h1] using h
  · rw [if_neg h1]
    by_cases h2 : find_best_order_position dist acc.1 o < 0
    · simpa [h2] using h
    · simp only [h2, if_false]
      exact insert_at_best_feasible dist acc.1 o (not_lt.mp h2)

theorem foldl_build_trip_feasible (dist : Dist) (wl : ℤ) :
    ∀ (l : List Order) (acc : List Order × ℤ), Feasible dist acc.1 →
      Feasible dist (l.foldl (build_trip_step dist wl) acc).1 := by
  intro l
  induction l with
  | nil => intro acc h; exact h
  | cons o rest ih =>
    intro acc h
    exact ih _ (build_trip_step_feasible dist wl acc o h)

theorem build_trip_feasible (dist : Dist) (wl : ℤ) (orders : List Order) :
    Feasible dist (build_trip dist wl orders) :=
  foldl_build_trip_feasible dist wl orders ([], 0) (Or.inl rfl)

theorem opt_step_feasible (dist : Dist) (st : OptState) (o : Order)
    (h : Feasible dist st.cur) : Feasible dist (opt_step dist st o).cur := by
  unfold opt_step
  by_cases h1 : (o.fragile && st.hasHaz) = true
  · simpa [h1] using h
  · rw [if_neg h1]
    by_cases h2 : (o.hazardous && st.hasFrag) = true
    · simpa [h2] using h
    · rw [if_neg h2]
      by_cases h3 : find_best_order_position dist st.cur o < 0
      · simpa [h3] using h
      · simp only [h3, if_false]
        exact insert_at_best_feasible dist st.cur o (not_lt.mp h3)

theorem foldl_opt_feasible (dist : Dist) :
    ∀ (l : List Order) (st : OptState), Feasible dist st.cur →
      Feasible dist (l.foldl (opt_step dist) st).cur := by
  intro l
  induction l with
  | nil => intro st h; exact h
  | cons o rest ih =>
    intro st h
    exact ih _ (opt_step_feasible dist st o h)

theorem build_most_optimal_trip_feasible (dist : Dist) (orders : List Order) :
    Feasible dist (build_most_optimal_trip dist orders) := by
  cases orders with
  | nil => exact Or.inl rfl
  | cons first rest =>
    simp only [build_most_optimal_trip]
    apply foldl_opt_feasible
    apply foldl_opt_feasible
    exact Or.inl rfl

/-! Section: Exclusion invariant of the optimal builder -/

theorem opt_step_inv (dist : Dist) (st : OptState) (o : Order)
    (h : OptInv st) : OptInv (opt_step dist st o) := by
  obtain ⟨hF, hH, hP⟩ := h
  unfold opt_step
  by_cases h1 : (o.fragile && st.hasHaz) = true
  · simpa [h1] using ⟨hF, hH, hP⟩
  · rw [if_neg h1]
    by_cases h2 : (o.hazardous && st.hasFrag) = true
    · simpa [h2] using ⟨hF, hH, hP⟩
    · rw [if_neg h2]
      by_cases h3 : find_best_order_position dist st.cur o < 0
      · simpa [h3] using ⟨hF, hH, hP⟩
      · simp only [h3, if_false]
        have hlen := (find_best_nonneg_spec dist st.cur o (not_lt.mp h3)).1
        have hmem : ∀ x : Order,
            x ∈ List.insertIdx (find_best_order_position dist st.cur o).toNat o st.cur
              ↔ x = o ∨ x ∈ st.cur := by
          intro x
          exact List.mem_insertIdx hlen
        simp only [Bool.and_eq_true, not_and, Bool.not_eq_true] at h1 h2
        refine ⟨?_, ?_, ?_⟩
        · intro x hx hxf
          rcases (hmem x).mp hx with hxo | hxc
          · subst hxo; simp [hxf]
          · simp [hF x hxc hxf]
        · intro x hx hxh
          rcases (hmem x).mp hx with hxo | hxc
          · subst hxo; simp [hxh]
          · simp [hH x hxc hxh]
        · intro x1 hx1 x2 hx2 hf hz
          rcases (hmem x1).mp hx1 with h1o | h1c <;> rcases (hmem x2).mp hx2 with h2o | h2c
          · subst h1o; subst h2o; rfl
          · subst h1o
            have hsz := hH x2 h2c hz
            have := h1 hf
            rw [this] at hsz
            exact absurd hsz (by simp)
          · subst h2o
            have hsf := hF x1 h1c hf
            have := h2 hz
            rw [this] at hsf
            exact absurd hsf (by simp)
          · exact hP x1 h1c x2 h2c hf hz

theorem foldl_opt_inv (dist : Dist) :
    ∀ (l : List Order) (st : OptState), OptInv st →
      OptInv (l.foldl (opt_step dist) st) := by
  intro l
  induction l with
  | nil => intro st h; exact h
  | cons o rest ih =>
    intro st h
    exact ih _ (opt_step_inv dist st o h)

theorem build_most_optimal_trip_inv (dist : Dist) (orders : List Order) :
    ∀ o1 ∈ build_most_optimal_trip dist orders, ∀ o2 ∈ build_most_optimal_trip dist orders,
      o1.fragile = true → o2.hazardous = true → o1 = o2 := by
  cases orders with
  | nil => intro o1 h1; simp [build_most_optimal_trip] at h1
  | cons first rest =>
    intro o1 ho1 o2 ho2 hf hz
    simp only [build_most_optimal_trip] at ho1 ho2
    have base : OptInv ⟨[], [], false, false⟩ := by
      refine ⟨?_, ?_, ?_⟩ <;> intro x hx <;> simp at hx
    exact (foldl_opt_inv dist _ _ (foldl_opt_inv dist _ _ base)).2.2 o1 ho1 o2 ho2 hf hz

/-! Section: Battery bounds for real trips -/

theorem totalWeight_nonneg (l : List Order) (hw : ∀ o ∈ l, 0 ≤ o.weight) :
    0 ≤ totalWeight l := by
  apply List.sum_nonneg
  intro x hx
  obtain ⟨o, ho, rfl⟩ := List.mem_map.mp hx
  exact hw o ho

theorem cost_nonneg (w d : ℚ) (hw : -512 ≤ w) (hd : 0 ≤ d) :
    0 ≤ get_percent_battery_required w d := by
  unfold get_percent_battery_required
  apply div_nonneg (mul_nonneg hd (by linarith)) (by norm_num)

theorem runTripLoop_le (dist : Dist) (hd : ∀ i j, 0 ≤ dist i j) :
    ∀ (l : List Order) (prev : ℕ) (payload : ℤ) (b b' : ℚ) (prev' : ℕ),
      (∀ o ∈ l, 0 ≤ o.weight) → totalWeight l ≤ payload →
      runTripLoop dist prev payload b l = some (b', prev') → b' ≤ b := by
  intro l
  induction l with
  | nil =>
    intro prev payload b b' prev' _ _ h
    simp only [runTripLoop, Option.some.injEq, Prod.mk.injEq] at h
    exact le_of_eq h.1.symm
  | cons o rest ih =>
    intro prev payload b b' prev' hw hp h
    simp only [runTripLoop] at h
    set b2 := b - get_percent_battery_required (payload : ℚ) (dist prev o.delivery_zone) with hb2
    by_cases hneg : b2 < 0
    · rw [if_pos hneg] at h
      exact absurd h (by simp)
    · rw [if_neg hneg] at h
      have hw' : ∀ o' ∈ rest, 0 ≤ o'.weight := fun o' ho' => hw o' (List.mem_cons_of_mem o ho')
      have hp' : totalWeight rest ≤ payload - o.weight := by
        have := totalWeight_cons o rest
        omega
      have hb' := ih o.delivery_zone (payload - o.weight) b2 b' prev' hw' hp' h
      have htw : (0 : ℤ) ≤ totalWeight (o :: rest) := totalWeight_nonneg _ hw
      have hpl : (0 : ℚ) ≤ (payload : ℚ) := by
        have : (0 : ℤ) ≤ payload := le_trans htw hp
        exact_mod_cast this
      have hc : 0 ≤ get_percent_battery_required (payload : ℚ) (dist prev o.delivery_zone) :=
        cost_nonneg _ _ (by linarith) (hd _ _)
      linarith

theorem run_trip_real_le (dist : Dist) (stored : ℚ) (orders : List Order)
    (hd : ∀ i j, 0 ≤ dist i j) (hw : ∀ o ∈ orders, 0 ≤ o.weight) (hs : 0 ≤ stored) :
    (run_trip dist stored orders false).1 ≤ stored := by
  cases hm : runTripLoop dist 0 (totalWeight orders) stored orders with
  | none =>
    simp only [run_trip, Bool.false_eq_true, if_false]
    rw [hm]
    simpa using by linarith
  | some p =>
    obtain ⟨b, prev⟩ := p
    have hb : b ≤ stored := runTripLoop_le dist hd orders 0 (totalWeight orders) stored b prev hw le_rfl hm
    have hc : 0 ≤ get_percent_battery_required 0 (dist prev 0) :=
      cost_nonneg _ _ (by norm_num) (hd _ _)
    simp only [run_trip, Bool.false_eq_true, if_false]
    rw [hm]
    by_cases hfin : b - get_percent_battery_required 0 (dist prev 0) < 0
    · simpa [hfin] using by linarith
    · simpa [hfin] using by linarith

/-! Section: Frame lemmas for `run_trip` -/

theorem run_trip_snd_simulated (dist : Dist) (stored : ℚ) (orders : List Order) :
    (run_trip dist stored orders true).2 = orders := by
  cases hm : runTripLoop dist 0 (totalWeight orders) 1 orders with
  | none =>
    simp only [run_trip, if_true]
    rw [hm]
  | some p =>
    obtain ⟨b, prev⟩ := p
    simp only [run_trip, if_true]
    rw [hm]

theorem run_trip_snd_real_success (dist : Dist) (stored : ℚ) (orders : List Order)
    (h : 0 ≤ (run_trip dist stored orders false).1) :
    (run_trip dist stored orders false).2 = [] := by
  cases hm : runTripLoop dist 0 (totalWeight orders) stored orders with
  | none =>
    simp only [run_trip, Bool.false_eq_true, if_false] at h ⊢
    rw [hm] at h
    norm_num at h
  | some p =>
    obtain ⟨b, prev⟩ := p
    simp only [run_trip, Bool.false_eq_true, if_false]
    rw [hm]

/-! Section: The single-pass shape of `build_trip` -/

theorem foldl_build_trip_eq_single_pass (dist : Dist) (wl : ℤ) :
    ∀ (l : List Order) (cur : List Order) (cw : ℤ),
      (l.foldl (build_trip_step dist wl) (cur, cw)).1
        = build_trip_single_pass dist wl cur cw l := by
  intro l
  induction l with
  | nil => intro cur cw; rfl
  | cons o rest ih =>
    intro cur cw
    simp only [List.foldl_cons, build_trip_single_pass, build_trip_step]
    by_cases h1 : wl < cw + o.weight
    · rw [if_pos h1, if_pos h1]
      exact ih cur cw
    · rw [if_neg h1, if_neg h1]
      by_cases h2 : find_best_order_position dist cur o < 0
      · simp only [h2, if_true]
        exact ih cur cw
      · simp only [h2, if_false]
        exact ih _ _

/-! Section: Flag monotonicity of the optimal builder -/

theorem opt_step_flags_mono (dist : Dist) (st : OptState) (o : Order) :
    (st.hasFrag = true → (opt_step dist st o).hasFrag = true)
    ∧ (st.hasHaz = true → (opt_step dist st o).hasHaz = true) := by
  unfold opt_step
  by_cases h1 : (o.fragile && st.hasHaz) = true
  · simp [h1]
  · rw [if_neg h1]
    by_cases h2 : (o.hazardous && st.hasFrag) = true
    · simp [h2]
    · rw [if_neg h2]
      by_cases h3 : find_best_order_position dist st.cur o < 0
      · simp [h3]
      · simp only [h3, if_false]
        constructor
        · intro h; simp [h]
        · intro h; simp [h]

/-! Section: Concrete evaluations -/

theorem fb_nil_o1 : find_best_order_position dist3 [] o1 = 0 := by
  norm_num [find_best_order_position, scanBest, insertCharge, run_trip, runTripLoop,
    totalWeight, get_percent_battery_required, dist3, o1, List.insertIdx]

theorem fb_o1_o2 : find_best_order_position dist3 [o1] o2 = 0 := by
  norm_num [find_best_order_position, scanBest, insertCharge, run_trip, runTripLoop,
    totalWeight, get_percent_battery_required, dist3, o1, o2, List.insertIdx]

theorem fb_nil_oFH : find_best_order_position dist3 [] oFH = 0 := by
  norm_num [find_best_order_position, scanBest, insertCharge, run_trip, runTripLoop,
    totalWeight, get_percent_battery_required, dist3, oFH, List.insertIdx]

theorem bt_o1 : build_trip dist3 1000000 [o1] = [o1] := by
  simp only [build_trip, List.foldl_cons, List.foldl_nil, build_trip_step, fb_nil_o1]
  norm_num [o1, List.insertIdx]

theorem bt_o1_o2 : build_trip dist3 1000000 [o1, o2] = [o2, o1] := by
  norm_num [build_trip, build_trip_step, find_best_order_position, scanBest, insertCharge,
    run_trip, runTripLoop, totalWeight, get_percent_battery_required, dist3, o1, o2,
    List.insertIdx]

theorem sbt_o1_o2 : spec_build_trip_two_phase dist3 [o1, o2] = [o1, o2] := by
  have h1 : (0 : ℚ) ≤ insertCharge dist3 [] o1 0 := by
    norm_num [insertCharge, run_trip, runTripLoop, totalWeight,
      get_percent_battery_required, dist3, o1, List.insertIdx]
  have h2 : (0 : ℚ) ≤ insertCharge dist3 [o1] o2 1 := by
    norm_num [insertCharge, run_trip, runTripLoop, totalWeight,
      get_percent_battery_required, dist3, o1, o2, List.insertIdx]
  simp only [spec_build_trip_two_phase, spec_phase1, List.length_nil, List.length_cons,
    List.nil_append]
  rw [if_pos h1]
  simp only [spec_phase1, List.length_cons, List.length_nil, List.singleton_append]
  rw [if_pos h2]
  simp [spec_phase1, sortBy]

theorem bmot_oFH : build_most_optimal_trip dist3 [oFH] = [oFH] := by
  norm_num [build_most_optimal_trip, opt_step, find_best_order_position, scanBest,
    insertCharge, run_trip, runTripLoop, totalWeight, get_percent_battery_required,
    dist3, oFH, sortBy, insertSorted, List.insertIdx]

theorem deliver_far_eval :
    Drone.deliver_orders distFar ⟨1, [o1]⟩ = (⟨-1, [o1]⟩, true) := by
  norm_num [Drone.deliver_orders, run_trip, runTripLoop, totalWeight,
    get_percent_battery_required, distFar, o1]

theorem dist3_nonneg : ∀ i j, (0 : ℚ) ≤ dist3 i j := by
  intro i j
  unfold dist3
  split_ifs <;> norm_num

theorem deliver_dist3_empty_eval :
    Drone.deliver_orders dist3 ⟨1, []⟩ = (⟨1, []⟩, false) := by
  norm_num [Drone.deliver_orders, run_trip, runTripLoop, totalWeight,
    get_percent_battery_required, dist3]

/-! Section: Claim theorems -/

/-- C1: `find_best_order_position` (modelled from the spec; the source body is
absent) tries every insertion index `0..len(current_orders)` inclusive,
simulating the full trip from full charge each time; it returns the sentinel
`-1` exactly when every position depletes, and otherwise a position within
bounds whose remaining charge is non-negative, maximal over all positions
(so in particular at least the tail's remaining charge), with every strictly
lower index strictly worse (lowest index wins ties). -/
theorem find_best_order_position_correct (dist : Dist) (cur : List Order) (o : Order) :
    (find_best_order_position dist cur o = -1 ∨ 0 ≤ find_best_order_position dist cur o)
    ∧ (find_best_order_position dist cur o = -1
        ↔ ∀ p ≤ cur.length, insertCharge dist cur o p < 0)
    ∧ (0 ≤ find_best_order_position dist cur o →
        (find_best_order_position dist cur o).toNat ≤ cur.length
        ∧ 0 ≤ insertCharge dist cur o (find_best_order_position dist cur o).toNat
        ∧ (∀ q ≤ cur.length, insertCharge dist cur o q
            ≤ insertCharge dist cur o (find_best_order_position dist cur o).toNat)
        ∧ (∀ q < (find_best_order_position dist cur o).toNat, insertCharge dist cur o q
            < insertCharge dist cur o (find_best_order_position dist cur o).toNat)
        ∧ insertCharge dist cur o cur.length
            ≤ insertCharge dist cur o (find_best_order_position dist cur o).toNat) := by
  refine ⟨find_best_cases dist cur o, find_best_neg_iff dist cur o, ?_⟩
  intro h
  obtain ⟨ha, hb, hc, hd⟩ := find_best_nonneg_spec dist cur o h
  exact ⟨ha, hb, hc, hd, hc cur.length le_rfl⟩

/-- Witness for C1: at `dist3`, an empty committed sequence and candidate `o1`,
the probe succeeds and its position's charge dominates the tail append. -/
theorem find_best_order_position_correct_witness :
    0 ≤ find_best_order_position dist3 [] o1
    ∧ insertCharge dist3 [] o1 ([] : List Order).length
        ≤ insertCharge dist3 [] o1 (find_best_order_position dist3 [] o1).toNat := by
  have h0 : 0 ≤ find_best_order_position dist3 [] o1 := by rw [fb_nil_o1]
  exact ⟨h0, ((find_best_order_position_correct dist3 [] o1).2.2 h0).2.2.2.2⟩

/-- C2: `run_trip` starts at 1 when simulating and at the stored level
otherwise, deducts the energy of each leg at the remaining payload and the
final return leg at zero payload, reports `-1` (never a negative balance) when
any balance of the trace is negative, and otherwise returns the final
(non-negative) balance. -/
theorem run_trip_depletion_contract (dist : Dist) (stored : ℚ) (orders : List Order)
    (simulated : Bool) :
    ((run_trip dist stored orders simulated).1
      = if (legBalances dist (if simulated then 1 else stored) orders).any
            (fun b => decide (b < 0))
        then -1 else lastD (legBalances dist (if simulated then 1 else stored) orders) 0)
    ∧ ((run_trip dist stored orders simulated).1 = -1
        ∨ 0 ≤ (run_trip dist stored orders simulated).1) :=
  ⟨run_trip_eq_spec dist stored orders simulated,
   run_trip_fst_cases dist stored orders simulated⟩

/-- C3: every trip returned by `build_trip` or `build_most_optimal_trip`
simulates from full charge without depletion — the result is non-negative and
every balance of the trace, the final return leg included, is non-negative.
(Both builders rest on the spec-modelled `find_best_order_position`; the
warehouse-to-itself distance is 0 per the data model, covering the empty
trip.) -/
theorem trip_builders_no_false_feasibility (dist : Dist) (h0 : dist 0 0 = 0) (wl : ℤ)
    (orders : List Order) :
    0 ≤ (run_trip dist 1 (build_trip dist wl orders) true).1
    ∧ (∀ b ∈ legBalances dist 1 (build_trip dist wl orders), 0 ≤ b)
    ∧ 0 ≤ (run_trip dist 1 (build_most_optimal_trip dist orders) true).1
    ∧ (∀ b ∈ legBalances dist 1 (build_most_optimal_trip dist orders), 0 ≤ b) := by
  have h1 := feasible_run_nonneg dist h0 _ (build_trip_feasible dist wl orders)
  have h2 := feasible_run_nonneg dist h0 _ (build_most_optimal_trip_feasible dist orders)
  refine ⟨h1, ?_, h2, ?_⟩
  · have := run_trip_nonneg_balances dist 1 _ true h1
    simpa using this
  · have := run_trip_nonneg_balances dist 1 _ true h2
    simpa using this

/-- Witness for C3: concrete instantiation at `dist3` and backlog `[o1]`. -/
theorem trip_builders_no_false_feasibility_witness :
    dist3 0 0 = 0 ∧ 0 ≤ (run_trip dist3 1 (build_trip dist3 1000000 [o1]) true).1 :=
  ⟨rfl, (trip_builders_no_false_feasibility dist3 rfl 1000000 [o1]).1⟩

/-- C4: no trip produced by `build_most_optimal_trip` holds two distinct orders
of which one is fragile and the other hazardous, and the exclusion flags are
never relaxed by any acceptance step. -/
theorem build_most_optimal_trip_exclusion (dist : Dist) (orders : List Order) :
    (∀ o1 ∈ build_most_optimal_trip dist orders,
      ∀ o2 ∈ build_most_optimal_trip dist orders,
        o1.fragile = true → o2.hazardous = true → o1 = o2)
    ∧ (∀ (st : OptState) (o : Order),
        (st.hasFrag = true → (opt_step dist st o).hasFrag = true)
        ∧ (st.hasHaz = true → (opt_step dist st o).hasHaz = true)) :=
  ⟨build_most_optimal_trip_inv dist orders, fun st o => opt_step_flags_mono dist st o⟩

/-- Witness for C4: the both-fragile-and-hazardous order `oFH` is accepted
alone, and the exclusion conclusion holds of it. -/
theorem build_most_optimal_trip_exclusion_witness :
    oFH ∈ build_most_optimal_trip dist3 [oFH]
    ∧ oFH.fragile = true ∧ oFH.hazardous = true ∧ oFH = oFH := by
  have hm : oFH ∈ build_most_optimal_trip dist3 [oFH] := by rw [bmot_oFH]; simp
  exact ⟨hm, rfl, rfl,
    (build_most_optimal_trip_exclusion dist3 [oFH]).1 oFH hm oFH hm rfl rfl⟩

/-- C5 (code bug): `schedule_orders` packages `o1` into a trip but never removes
it from `unpackaged_orders` — the method filters only its local sorted copy —
so after one scheduler run the order sits in a returned trip and in the backlog
at once, violating the partition invariant.  (The sibling
`_package_trips_optimal` does remove trip orders from the backlog.) -/
theorem schedule_orders_backlog_bug :
    (schedule_orders dist3 1000000 [SortKeyName.timestamp] ⟨[], [o1]⟩).trips = [[o1]]
    ∧ (schedule_orders dist3 1000000 [SortKeyName.timestamp]
        ⟨[], [o1]⟩).unpackaged_orders = [o1] := by
  constructor
  · simp only [schedule_orders, List.length_cons, List.length_nil, sortBy,
      List.foldl_cons, List.foldl_nil, insertSorted]
    simp only [schedule_loop, List.isEmpty_cons, Bool.false_eq_true, if_false, bt_o1,
      List.isEmpty_nil, if_true]
    simp [List.filter, schedule_loop]
  · rfl

/-- C6: during delivery draining, a `DeliveryException` is raised exactly when
the real-trip simulation depletes (the `-1` sentinel), and when the first trip's
delivery raises, the loop stops at once: the remaining trips are returned
undrained together with the drone in its failed state. -/
theorem delivery_depletion_aborts (dist : Dist) (trip : List Order)
    (rest : List (List Order)) (d : Drone) :
    ((Drone.deliver_orders dist d).2 = true
        ↔ (run_trip dist d.battery_charge d.orders false).1 < 0)
    ∧ ((run_trip dist d.battery_charge d.orders false).1 < 0
        ↔ (run_trip dist d.battery_charge d.orders false).1 = -1)
    ∧ ((Drone.deliver_orders dist { d with orders := d.orders ++ trip }).2 = true →
        deliver_orders_loop dist (trip :: rest) d
          = (rest, (Drone.deliver_orders dist { d with orders := d.orders ++ trip }).1,
             true)) := by
  refine ⟨?_, ?_, ?_⟩
  · simp [Drone.deliver_orders]
  · constructor
    · intro h
      rcases run_trip_fst_cases dist d.battery_charge d.orders false with he | hge
      · exact he
      · linarith
    · intro h
      rw [h]
      norm_num
  · intro h
    simp only [deliver_orders_loop]
    rw [if_pos h]

/-- Witness for C6: under `distFar` a single light order depletes the battery on
its first leg; the loop aborts with the failed drone state surfaced. -/
theorem delivery_depletion_aborts_witness :
    (Drone.deliver_orders distFar ⟨1, [] ++ [o1]⟩).2 = true
    ∧ deliver_orders_loop distFar [[o1]] ⟨1, []⟩
        = ([], (Drone.deliver_orders distFar ⟨1, [] ++ [o1]⟩).1, true) := by
  have h : (Drone.deliver_orders distFar ⟨1, [] ++ [o1]⟩).2 = true := by
    simp [deliver_far_eval]
  exact ⟨h, (delivery_depletion_aborts distFar [o1] [] ⟨1, []⟩).2.2 h⟩

/-- C7 counterexample: `build_trip` is not the claimed two-phase tail-append
algorithm — on `[o1, o2]` the source's single pass inserts `o2` in front of
`o1` (position 0 beats the tail), while the spec's two-phase algorithm appends
at the tail and returns `[o1, o2]`. -/
theorem build_trip_two_phase_counterexample :
    build_trip dist3 1000000 [o1, o2] = [o2, o1]
    ∧ spec_build_trip_two_phase dist3 [o1, o2] = [o1, o2]
    ∧ build_trip dist3 1000000 [o1, o2] ≠ spec_build_trip_two_phase dist3 [o1, o2] := by
  refine ⟨bt_o1_o2, sbt_o1_o2, ?_⟩
  rw [bt_o1_o2, sbt_o1_o2]
  decide

/-- C7 amended: `build_trip` makes a single pass over the candidates in the
given order — each order is skipped when it would exceed the weight limit or
has no feasible position (later candidates still being attempted), and is
otherwise inserted at the best position over all indices, not the tail. -/
theorem build_trip_single_pass_eq (dist : Dist) (wl : ℤ) (orders : List Order) :
    build_trip dist wl orders = build_trip_single_pass dist wl [] 0 orders :=
  foldl_build_trip_eq_single_pass dist wl orders [] 0

/-- C8: the energy model returns exactly
`distance * (payload_weight + 512) / 36739` and is monotonically non-decreasing
in both arguments over non-negative inputs.  (It is pure by construction: the
source body is one arithmetic expression.) -/
theorem get_percent_battery_required_contract (w d w2 d2 : ℚ)
    (hw : 0 ≤ w) (hd : 0 ≤ d) (hw2 : w ≤ w2) (hd2 : d ≤ d2) :
    get_percent_battery_required w d = d * (w + 512) / 36739
    ∧ get_percent_battery_required w d ≤ get_percent_battery_required w2 d2 := by
  refine ⟨rfl, ?_⟩
  unfold get_percent_battery_required
  rw [div_le_div_iff₀ (by norm_num) (by norm_num)]
  nlinarith

/-- Witness for C8: concrete instantiation at `(1, 2) ≤ (3, 4)`. -/
theorem get_percent_battery_required_contract_witness :
    (0 : ℚ) ≤ 1 ∧ (0 : ℚ) ≤ 2 ∧ (1 : ℚ) ≤ 3 ∧ (2 : ℚ) ≤ 4
    ∧ get_percent_battery_required 1 2 ≤ get_percent_battery_required 3 4 :=
  ⟨by norm_num, by norm_num, by norm_num, by norm_num,
   (get_percent_battery_required_contract 1 2 3 4 (by norm_num) (by norm_num)
     (by norm_num) (by norm_num)).2⟩

/-- C9 counterexample: after a failed `deliver_orders` the stored
`battery_charge` is the sentinel `-1`, outside `[0, 1]`. -/
theorem deliver_orders_battery_counterexample :
    (Drone.deliver_orders distFar ⟨1, [o1]⟩).1.battery_charge = -1
    ∧ ¬ (0 ≤ (Drone.deliver_orders distFar ⟨1, [o1]⟩).1.battery_charge) := by
  rw [deliver_far_eval]
  norm_num

/-- C9 amended: the stored battery is 1 at construction and after `recharge`;
after a `deliver_orders` that returns normally it stays within `[0, 1]`
(given non-negative distances and weights and a starting level in `[0, 1]`);
after one that signals failure it is the `-1` sentinel, not a value in
`[0, 1]`. -/
theorem battery_state_amended (dist : Dist) (d : Drone)
    (hd : ∀ i j, 0 ≤ dist i j) (hw : ∀ o ∈ d.orders, 0 ≤ o.weight)
    (hb0 : 0 ≤ d.battery_charge) (hb1 : d.battery_charge ≤ 1) :
    Drone.init.battery_charge = 1
    ∧ (Drone.recharge d).battery_charge = 1
    ∧ ((Drone.deliver_orders dist d).2 = false →
        0 ≤ (Drone.deliver_orders dist d).1.battery_charge
        ∧ (Drone.deliver_orders dist d).1.battery_charge ≤ 1)
    ∧ ((Drone.deliver_orders dist d).2 = true →
        (Drone.deliver_orders dist d).1.battery_charge = -1) := by
  refine ⟨rfl, rfl, ?_, ?_⟩
  · intro h
    have hflag : ¬ ((run_trip dist d.battery_charge d.orders false).1 < 0) := by
      simpa [Drone.deliver_orders] using h
    have hle := run_trip_real_le dist d.battery_charge d.orders hd hw hb0
    have hval : (Drone.deliver_orders dist d).1.battery_charge
        = (run_trip dist d.battery_charge d.orders false).1 := rfl
    rw [hval]
    exact ⟨not_lt.mp hflag, le_trans hle hb1⟩
  · intro h
    have hflag : (run_trip dist d.battery_charge d.orders false).1 < 0 := by
      simpa [Drone.deliver_orders] using h
    have hval : (Drone.deliver_orders dist d).1.battery_charge
        = (run_trip dist d.battery_charge d.orders false).1 := rfl
    rw [hval]
    rcases run_trip_fst_cases dist d.battery_charge d.orders false with he | hge
    · exact he
    · linarith

/-- Witness for C9's amended claim: a successful empty delivery under `dist3`
keeps the stored level in `[0, 1]`. -/
theorem battery_state_amended_witness :
    (Drone.deliver_orders dist3 ⟨1, []⟩).2 = false
    ∧ 0 ≤ (Drone.deliver_orders dist3 ⟨1, []⟩).1.battery_charge
    ∧ (Drone.deliver_orders dist3 ⟨1, []⟩).1.battery_charge ≤ 1 := by
  have hflag : (Drone.deliver_orders dist3 ⟨1, []⟩).2 = false := by
    rw [deliver_dist3_empty_eval]
  have happ := (battery_state_amended dist3 ⟨1, []⟩ dist3_nonneg (by simp)
    (by norm_num) (by norm_num)).2.2.1 hflag
  exact ⟨hflag, happ.1, happ.2⟩

/-- C10: a simulated `run_trip` leaves the drone object and the passed orders
list untouched; a real trip that completes without depletion removes every
delivered order from the list. -/
theorem run_trip_simulated_frame (dist : Dist) (d : Drone) (orders : List Order) :
    (Drone.run_trip dist d orders true).2.2 = d
    ∧ (Drone.run_trip dist d orders true).2.1 = orders
    ∧ (0 ≤ (Drone.run_trip dist d orders false).1 →
        (Drone.run_trip dist d orders false).2.1 = []) := by
  refine ⟨rfl, ?_, ?_⟩
  · exact run_trip_snd_simulated dist d.battery_charge orders
  · intro h
    exact run_trip_snd_real_success dist d.battery_charge orders h

/-- Witness for C10: a successful real trip under `dist3` drains the list. -/
theorem run_trip_simulated_frame_witness :
    0 ≤ (Drone.run_trip dist3 ⟨1, []⟩ [o1] false).1
    ∧ (Drone.run_trip dist3 ⟨1, []⟩ [o1] false).2.1 = [] := by
  have h : 0 ≤ (Drone.run_trip dist3 ⟨1, []⟩ [o1] false).1 := by
    norm_num [Drone.run_trip, run_trip, runTripLoop, totalWeight,
      get_percent_battery_required, dist3, o1]
  exact ⟨h, (run_trip_simulated_frame dist3 ⟨1, []⟩ [o1]).2.2 h⟩

end DroneDelivery
